import Mathlib

/-!
# Verification of the document-summarization service (`src/main.py`)

Shallow embedding of the pure core of `main.py`:

* `split_text` — the Chunker (`main.py` lines 163–175); texts are `List Char`,
  the `while` loop is embedded with explicit fuel (the loop body is translated
  verbatim; `max 0 (end - overlap)` collapses to truncated `Nat` subtraction).
* `summarize_long_text` — the Map-Reduce Summarizer (lines 205–214); the
  Completion Client (`call_vertex`, lines 90–95) is an oracle parameter
  `O : List Char → Except ε (List Char)` returning the provider reply or a
  provider error; the embedding additionally returns the list of prompts
  issued, in order, so that call counts and the merge prompt are observable.
* `parse_points` — the outline parser (lines 108–136), including the regex
  `^\s*(Slide|Section)\s*(\d+)\s*:\s*(.+)$` modelled as an explicit scanner.
* `extract_slide_count` (lines 83–88) with `re.search` modelled as a
  leftmost-position scan.
* the TXT branch of `extract_text` (lines 152–160): strict UTF-8, UTF-16
  (BOM-aware, native little-endian default), UTF-16-LE/BE and Latin-1
  decoders over byte lists, with Python text-mode universal-newline
  translation applied to the decoded result.
-/

/-! ## Generic character/string helpers (Python `str` methods) -/

/-- Python `str.lstrip()` (whitespace). -/
def lstripW (l : List Char) : List Char := l.dropWhile Char.isWhitespace

/-- Python `str.rstrip()` (whitespace). -/
def rstripW (l : List Char) : List Char :=
  (l.reverse.dropWhile Char.isWhitespace).reverse

/-- Python `str.strip()` (whitespace, both ends). -/
def stripW (l : List Char) : List Char := rstripW (lstripW l)

/-! ## The Chunker: `split_text` (`main.py` 163–175)

```python
def split_text(text, chunk_size=8000, overlap=300):
    if not text:
        return []
    chunks = []
    start = 0
    n = len(text)
    while start < n:
        end = min(start + chunk_size, n)
        chunks.append(text[start:end])
        if end == n:
            break
        start = max(0, end - overlap)
    return chunks
```

The `while` loop is embedded with explicit fuel; `text.length + 1` fuel is
always enough when `overlap < chunk_size` (proved below as the termination
part of the coverage theorem). -/

def splitLoop (text : List Char) (cs ov : Nat) : Nat → Nat → List (List Char)
  | _, 0 => []
  | start, fuel + 1 =>
    if start < text.length then
      let e := min (start + cs) text.length
      let chunk := (text.drop start).take (e - start)
      if e = text.length then [chunk]
      else chunk :: splitLoop text cs ov (e - ov) fuel
    else []

/-- `split_text` from `main.py`; the default arguments `chunk_size=8000`,
`overlap=300` are passed explicitly at every call site of the embedding. -/
def split_text (text : List Char) (cs ov : Nat) : List (List Char) :=
  if text = [] then [] else splitLoop text cs ov 0 (text.length + 1)

/-! ## The Completion Client and the Map-Reduce Summarizer (`main.py` 90–95, 205–214)

```python
def call_vertex(prompt: str) -> str:
    try:
        response = TEXT_MODEL.generate_content(prompt)
        return response.text.strip()
    except Exception as e:
        raise HTTPException(...)

def summarize_long_text(full_text: str) -> str:
    chunks = split_text(full_text)
    if len(chunks) <= 1:
        return call_vertex(f"Summarize the following text in detail:\n\n{full_text}")
    partial_summaries = []
    for idx, ch in enumerate(chunks, start=1):
        mapped = call_vertex(f"Summarize this part of a longer document:\n\n{ch}")
        partial_summaries.append(f"Chunk {idx}:\n{mapped.strip()}")
    combined = "\n\n".join(partial_summaries)
    return call_vertex(f"Combine these summaries into one clean, well-structured summary:\n\n{combined}")
```

The provider (`TEXT_MODEL.generate_content` returning `response.text`) is an
external collaborator, embedded as an oracle `O : List Char → Except ε (List Char)`;
a raised provider exception is `Except.error`. The embedding of
`summarize_long_text` returns the result together with the list of prompts
issued to the Completion Client, in order, so that the number and content of
the round trips are observable. -/

/-- `call_vertex` over the provider oracle: the reply is stripped; a provider
exception propagates. -/
def call_vertex {ε : Type} (O : List Char → Except ε (List Char))
    (prompt : List Char) : Except ε (List Char) :=
  match O prompt with
  | Except.ok t => Except.ok (stripW t)
  | Except.error e => Except.error e

/-- Prompt of the single-call path: `f"Summarize the following text in detail:\n\n{full_text}"`. -/
def detailPrompt (full_text : List Char) : List Char :=
  "Summarize the following text in detail:\n\n".toList ++ full_text

/-- Per-chunk prompt: `f"Summarize this part of a longer document:\n\n{ch}"`. -/
def partPrompt (ch : List Char) : List Char :=
  "Summarize this part of a longer document:\n\n".toList ++ ch

/-- Merge prompt: `f"Combine these summaries into one clean, well-structured summary:\n\n{combined}"`. -/
def mergePrompt (combined : List Char) : List Char :=
  "Combine these summaries into one clean, well-structured summary:\n\n".toList
    ++ combined

/-- Labelled chunk summary: `f"Chunk {idx}:\n{mapped.strip()}"`. -/
def chunkLabel (idx : Nat) (mapped : List Char) : List Char :=
  "Chunk ".toList ++ (Nat.repr idx).toList ++ ":\n".toList ++ stripW mapped

/-- The `for idx, ch in enumerate(chunks, start=1)` loop: summarize each chunk,
collecting the labelled summaries; a failing call aborts. Returns the labelled
summaries (or the error of the first failing call) and the prompts issued. -/
def summarizeChunksLoop {ε : Type} (O : List Char → Except ε (List Char)) :
    List (List Char) → Nat → Except ε (List (List Char)) × List (List Char)
  | [], _ => (Except.ok [], [])
  | ch :: rest, idx =>
    match call_vertex O (partPrompt ch) with
    | Except.error e => (Except.error e, [partPrompt ch])
    | Except.ok mapped =>
      let res := summarizeChunksLoop O rest (idx + 1)
      (res.1.map (fun ss => chunkLabel idx mapped :: ss), partPrompt ch :: res.2)

/-- `summarize_long_text` from `main.py`, instrumented with the list of prompts
issued (second component, in issue order). -/
def summarize_long_text {ε : Type} (O : List Char → Except ε (List Char))
    (full_text : List Char) : Except ε (List Char) × List (List Char) :=
  let chunks := split_text full_text 8000 300
  if chunks.length ≤ 1 then
    (call_vertex O (detailPrompt full_text), [detailPrompt full_text])
  else
    match summarizeChunksLoop O chunks 1 with
    | (Except.error e, log) => (Except.error e, log)
    | (Except.ok pieces, log) =>
      let combined := List.intercalate "\n\n".toList pieces
      (call_vertex O (mergePrompt combined), log ++ [mergePrompt combined])

/-- The stripped reply of a successful oracle call (the value `call_vertex`
returns when the call succeeds). -/
def stripOk {ε : Type} : Except ε (List Char) → List Char
  | Except.ok v => stripW v
  | Except.error _ => []

/-! ## The outline parser: `parse_points` (`main.py` 108–136)

```python
def parse_points(points_text):
    points = []
    current_title, current_content = None, []
    lines = [re.sub(r"[#*>`]", "", ln).rstrip() for ln in points_text.splitlines()]
    for line in lines:
        if not line or "Would you like" in line:
            continue
        m = re.match(r"^\s*(Slide|Section)\s*(\d+)\s*:\s*(.+)$", line, re.IGNORECASE)
        if m:
            if current_title:
                points.append({"title": current_title, "description": "\n".join(current_content)})
            current_title, current_content = m.group(3).strip(), []
            continue
        if line.strip().startswith("-"):
            text = line.lstrip("-").strip()
            if text:
                current_content.append(f"• {text}")
        elif line.strip().startswith(("•", "*")) or line.startswith("  "):
            text = line.lstrip("•*").strip()
            if text:
                current_content.append(f"- {text}")
        else:
            if line.strip():
                current_content.append(line.strip())
    if current_title:
        points.append({"title": current_title, "description": "\n".join(current_content)})
    return points
```

The anchored regex is modelled as an explicit scanner `matchHeader`.  For the
group-3 capture, `\s*(.+)$` with backtracking matches exactly when the text
after the colon is nonempty, and `group(3).strip()` equals the strip of that
whole remainder (the greedy `\s*` only removes leading whitespace, which
`strip` removes anyway); `matchHeader` therefore returns the full remainder
after the colon, and the caller strips it.  `(Slide|Section)` needs no
backtracking because the two alternatives are never both prefixes of the same
line.  `str.splitlines` is modelled for `\n`-separated text (model replies);
`\s`/`\d` are modelled as `Char.isWhitespace`/`Char.isDigit`. -/

/-- An outline item: `{"title": ..., "description": ...}`. -/
structure Point where
  title : List Char
  description : List Char
  deriving DecidableEq

/-- The characters removed by `re.sub(r"[#*>\x60]", "", ln)` (hash, asterisk,
greater-than, backtick). -/
def mdChars : List Char := ['#', '*', '>', Char.ofNat 96]

/-- `re.sub(r"[#*>\x60]", "", ln)`. -/
def removeMd (l : List Char) : List Char := l.filter (fun c => !(mdChars.contains c))

/-- Split at newline characters, keeping empty segments. -/
def splitNlAux : List Char → List Char → List (List Char)
  | [], acc => [acc.reverse]
  | c :: rest, acc =>
    if c = '\n' then acc.reverse :: splitNlAux rest [] else splitNlAux rest (c :: acc)

/-- Python `str.splitlines()` on `\n`-separated text: split at newlines, with
no empty segment after a trailing newline (`"".splitlines() == []`). -/
def splitlines (t : List Char) : List (List Char) :=
  let ls := splitNlAux t []
  if ls.getLast? = some [] then ls.dropLast else ls

/-- The skip phrase `"Would you like"`. -/
def wouldYouLike : List Char := "Would you like".toList

/-- Python substring containment: `pat in s`. -/
def containsSub (pat : List Char) : List Char → Bool
  | [] => pat.isEmpty
  | c :: rest => pat.isPrefixOf (c :: rest) || containsSub pat rest

/-- `if not line or "Would you like" in line: continue`. -/
def isSkipped (l : List Char) : Bool := l.isEmpty || containsSub wouldYouLike l

/-- Case-insensitive keyword match: drops the keyword `pat` (given lowercase)
from the front of the line, or fails. -/
def ciDropKeyword : List Char → List Char → Option (List Char)
  | [], rest => some rest
  | _ :: _, [] => none
  | p :: ps, c :: cs => if c.toLower = p then ciDropKeyword ps cs else none

/-- `re.match(r"^\s*(Slide|Section)\s*(\d+)\s*:\s*(.+)$", line, re.IGNORECASE)`:
returns the remainder after the colon (nonempty, to be stripped by the caller)
when the line is a header line. -/
def matchHeader (line : List Char) : Option (List Char) :=
  let l1 := line.dropWhile Char.isWhitespace
  let afterKw :=
    match ciDropKeyword "slide".toList l1 with
    | some r => some r
    | none => ciDropKeyword "section".toList l1
  match afterKw with
  | none => none
  | some l2 =>
    let l3 := l2.dropWhile Char.isWhitespace
    if (l3.takeWhile Char.isDigit).isEmpty then none
    else
      match (l3.dropWhile Char.isDigit).dropWhile Char.isWhitespace with
      | c :: rest => if c = ':' ∧ rest ≠ [] then some rest else none
      | [] => none

/-- `line.startswith(c)` for a single character. -/
def startsWithChar : List Char → Char → Bool
  | [], _ => false
  | a :: _, c => a = c

/-- The body-line handling of the `for` loop: how one non-header, non-skipped
line extends `current_content` (appending at the end, as the Python list
`append` does). -/
def bodyAppend (l : List Char) (content : List (List Char)) : List (List Char) :=
  if startsWithChar (stripW l) '-' then
    let text := stripW (l.dropWhile (fun c => c == '-'))
    if text = [] then content else content ++ ["• ".toList ++ text]
  else if startsWithChar (stripW l) '•' || startsWithChar (stripW l) '*'
      || l.take 2 = [' ', ' '] then
    let text := stripW (l.dropWhile (fun c => c == '•' || c == '*'))
    if text = [] then content else content ++ ["- ".toList ++ text]
  else
    if stripW l = [] then content else content ++ [stripW l]

/-- `if current_title: points.append(...)` — the flush step; a `None` or empty
title (both falsy in Python) flushes nothing; the description is
`"\n".join(current_content)`. -/
def flushPoint : Option (List Char) → List (List Char) → List Point
  | none, _ => []
  | some t, content =>
    if t = [] then [] else [⟨t, List.intercalate ['\n'] content⟩]

/-- The `for line in lines` loop of `parse_points`, carrying `current_title`
(`none` = Python `None`) and `current_content`. -/
def parseLoop : List (List Char) → Option (List Char) → List (List Char) → List Point
  | [], cur, content => flushPoint cur content
  | l :: rest, cur, content =>
    if isSkipped l then parseLoop rest cur content
    else
      match matchHeader l with
      | some g3 => flushPoint cur content ++ parseLoop rest (some (stripW g3)) []
      | none => parseLoop rest cur (bodyAppend l content)

/-- The line preprocessing of `parse_points`:
`[re.sub(r"[#*>\x60]", "", ln).rstrip() for ln in points_text.splitlines()]`. -/
def processLines (t : List Char) : List (List Char) :=
  (splitlines t).map (fun l => rstripW (removeMd l))

/-- `parse_points` from `main.py`. -/
def parse_points (points_text : List Char) : List Point :=
  parseLoop (processLines points_text) none []

/-- The title contributed by one preprocessed line: `some` exactly for
non-skipped lines matching the header pattern. -/
def keptTitle (l : List Char) : Option (List Char) :=
  if isSkipped l then none else (matchHeader l).map stripW

/-- As `keptTitle`, but also dropping headers whose stripped title is empty
(such a title is falsy in Python and is never flushed; preprocessed lines never
produce one, which is proved below). -/
def keptTitleNE (l : List Char) : Option (List Char) :=
  if isSkipped l then none
  else
    match matchHeader l with
    | some g3 => if stripW g3 = [] then none else some (stripW g3)
    | none => none

/-- The titles flushed from the pending `current_title`. -/
def flushTitles : Option (List Char) → List (List Char)
  | none => []
  | some t => if t = [] then [] else [t]

/-! ## `extract_slide_count` (`main.py` 83–88)

```python
def extract_slide_count(description: str, default: int = 5) -> int:
    m = re.search(r"(\d+)\s*(slides?|sections?|pages?)", description, re.IGNORECASE)
    if m:
        total = int(m.group(1))
        return max(1, total - 1)
    return default - 1
```

`re.search` is modelled as a scan over start positions, leftmost first.  At a
given position the pattern matches exactly when a nonempty digit run starts
there and, after the digits and optional whitespace, one of the keywords
`slide`/`section`/`page` follows case-insensitively (backtracking `\d+` into a
shorter run cannot help: the following character is then a digit, which
matches neither `\s` nor a keyword; the optional plural `s?` is irrelevant to
whether a match exists).  Python's `max(1, total - 1)` on `int` equals
`max 1 (total - 1)` on `Nat`, since `total ≥ 0`. -/

/-- Does one of `slide`/`section`/`page` start here (case-insensitively)? -/
def kwAfterCount (rest : List Char) : Bool :=
  (ciDropKeyword "slide".toList rest).isSome
    || (ciDropKeyword "section".toList rest).isSome
    || (ciDropKeyword "page".toList rest).isSome

/-- `int(...)` on a digit run. -/
def natOfDigits (ds : List Char) : Nat :=
  ds.foldl (fun a c => a * 10 + (c.toNat - 48)) 0

/-- Try the pattern `(\d+)\s*(slides?|sections?|pages?)` at this position. -/
def countMatchAt (l : List Char) : Option Nat :=
  let ds := l.takeWhile Char.isDigit
  if ds.isEmpty then none
  else if kwAfterCount ((l.dropWhile Char.isDigit).dropWhile Char.isWhitespace)
  then some (natOfDigits ds) else none

/-- `re.search`: first matching position, scanning left to right. -/
def searchCount : List Char → Option Nat
  | [] => none
  | c :: rest =>
    match countMatchAt (c :: rest) with
    | some n => some n
    | none => searchCount rest

/-- `extract_slide_count` from `main.py` (`dflt` is the `default` parameter). -/
def extract_slide_count (description : List Char) (dflt : Nat) : Nat :=
  match searchCount description with
  | some total => max 1 (total - 1)
  | none => dflt - 1

/-- The item count the outline-generation endpoints pass to
`generate_outline_from_desc` (`main.py` 294 and 324):
`extract_slide_count(request.description, default=5)`. -/
def num_content_slides (description : List Char) : Nat :=
  extract_slide_count description 5

/-! ## The TXT branch of `extract_text` (`main.py` 152–160)

```python
    if name.endswith(".txt"):
        for enc in ("utf-8", "utf-16", "utf-16-le", "utf-16-be", "latin-1"):
            try:
                with open(path, "r", encoding=enc) as f:
                    return f.read()
            except UnicodeDecodeError:
                continue
        with open(path, "r", encoding="utf-8", errors="ignore") as f:
            return f.read()
```

File bytes are `List Nat` (each < 256) and decoded text is the list of Unicode
code points.  Each decoder is strict, exactly as CPython's: UTF-8 rejects
continuation-position leads, overlong forms, surrogates and values above
U+10FFFF; UTF-16 rejects odd lengths and lone surrogates; `utf-16` consumes a
BOM to choose the byte order and otherwise uses the platform's native order
(little-endian on this deployment); `latin-1` maps every byte to the same code
point and never fails — so the final `errors="ignore"` pass is unreachable (it
is embedded anyway, skipping one byte at each undecodable position).  Reading
in text mode also applies Python's universal-newline translation
(`\r\n` and `\r` become `\n`) to the decoded text. -/

/-- One step of strict UTF-8 decoding: the leading scalar value and the
remaining bytes, or `none` if the input starts with an invalid sequence
(continuation-position lead, overlong form, surrogate, value above U+10FFFF,
or truncation). -/
def utf8Step (bs : List Nat) : Option (Nat × List Nat) :=
  match bs with
  | [] => none
  | b1 :: rest =>
    if b1 < 128 then some (b1, rest)
    else if b1 < 194 then none
    else if b1 < 224 then
      match rest with
      | b2 :: rest2 =>
        if 128 ≤ b2 ∧ b2 < 192 then some ((b1 - 192) * 64 + (b2 - 128), rest2)
        else none
      | [] => none
    else if b1 < 240 then
      match rest with
      | b2 :: b3 :: rest3 =>
        if (128 ≤ b2 ∧ b2 < 192) ∧ (128 ≤ b3 ∧ b3 < 192)
            ∧ (b1 ≠ 224 ∨ 160 ≤ b2) ∧ (b1 ≠ 237 ∨ b2 < 160) then
          some ((b1 - 224) * 4096 + (b2 - 128) * 64 + (b3 - 128), rest3)
        else none
      | _ => none
    else if b1 < 245 then
      match rest with
      | b2 :: b3 :: b4 :: rest4 =>
        if (128 ≤ b2 ∧ b2 < 192) ∧ (128 ≤ b3 ∧ b3 < 192) ∧ (128 ≤ b4 ∧ b4 < 192)
            ∧ (b1 ≠ 240 ∨ 144 ≤ b2) ∧ (b1 ≠ 244 ∨ b2 < 144) then
          some ((b1 - 240) * 262144 + (b2 - 128) * 4096
            + (b3 - 128) * 64 + (b4 - 128), rest4)
        else none
      | _ => none
    else none

/-- Iterated `utf8Step`; each successful step consumes at least one byte, so
fuel equal to the byte count always suffices. -/
def utf8DecodeGo : Nat → List Nat → Option (List Nat)
  | _, [] => some []
  | 0, _ :: _ => none
  | n + 1, b :: bs =>
    match utf8Step (b :: bs) with
    | none => none
    | some (c, rest) => (utf8DecodeGo n rest).map (fun cs => c :: cs)

/-- Strict UTF-8 decoding of a byte list into code points. -/
def utf8Decode (bs : List Nat) : Option (List Nat) := utf8DecodeGo bs.length bs

/-- UTF-8 decoding with `errors="ignore"`: skip a byte at each undecodable
position (unreachable in `extract_text`, since `latin-1` never fails). -/
def utf8DecodeIgnore : List Nat → List Nat
  | [] => []
  | b1 :: rest =>
    if b1 < 128 then b1 :: utf8DecodeIgnore rest
    else if b1 < 194 then utf8DecodeIgnore rest
    else if b1 < 224 then
      match rest with
      | b2 :: rest2 =>
        if 128 ≤ b2 ∧ b2 < 192 then
          ((b1 - 192) * 64 + (b2 - 128)) :: utf8DecodeIgnore rest2
        else utf8DecodeIgnore (b2 :: rest2)
      | [] => []
    else if b1 < 240 then
      match rest with
      | b2 :: b3 :: rest3 =>
        if (128 ≤ b2 ∧ b2 < 192) ∧ (128 ≤ b3 ∧ b3 < 192)
            ∧ (b1 ≠ 224 ∨ 160 ≤ b2) ∧ (b1 ≠ 237 ∨ b2 < 160) then
          ((b1 - 224) * 4096 + (b2 - 128) * 64 + (b3 - 128)) :: utf8DecodeIgnore rest3
        else utf8DecodeIgnore (b2 :: b3 :: rest3)
      | _ => []
    else if b1 < 245 then
      match rest with
      | b2 :: b3 :: b4 :: rest4 =>
        if (128 ≤ b2 ∧ b2 < 192) ∧ (128 ≤ b3 ∧ b3 < 192) ∧ (128 ≤ b4 ∧ b4 < 192)
            ∧ (b1 ≠ 240 ∨ 144 ≤ b2) ∧ (b1 ≠ 244 ∨ b2 < 144) then
          ((b1 - 240) * 262144 + (b2 - 128) * 4096 + (b3 - 128) * 64 + (b4 - 128))
            :: utf8DecodeIgnore rest4
        else utf8DecodeIgnore (b2 :: b3 :: b4 :: rest4)
      | _ => []
    else utf8DecodeIgnore rest

/-- Pair up bytes little-endian into 16-bit units (fails on odd length). -/
def toU16le : List Nat → Option (List Nat)
  | [] => some []
  | [_] => none
  | b1 :: b2 :: rest => (toU16le rest).map (fun us => (b1 + 256 * b2) :: us)

/-- Pair up bytes big-endian into 16-bit units (fails on odd length). -/
def toU16be : List Nat → Option (List Nat)
  | [] => some []
  | [_] => none
  | b1 :: b2 :: rest => (toU16be rest).map (fun us => (256 * b1 + b2) :: us)

/-- Combine surrogate pairs into code points (fails on a lone surrogate). -/
def combineSurrogates : List Nat → Option (List Nat)
  | [] => some []
  | u :: rest =>
    if u < 55296 ∨ 57344 ≤ u then (combineSurrogates rest).map (fun cs => u :: cs)
    else if u < 56320 then
      match rest with
      | v :: rest2 =>
        if 56320 ≤ v ∧ v < 57344 then
          (combineSurrogates rest2).map
            (fun cs => (65536 + (u - 55296) * 1024 + (v - 56320)) :: cs)
        else none
      | [] => none
    else none

/-- Python `utf-16-le` decoding. -/
def utf16leDecode (bs : List Nat) : Option (List Nat) :=
  (toU16le bs).bind combineSurrogates

/-- Python `utf-16-be` decoding. -/
def utf16beDecode (bs : List Nat) : Option (List Nat) :=
  (toU16be bs).bind combineSurrogates

/-- Python `utf-16` decoding: a BOM chooses the byte order; without a BOM the
platform's native order (little-endian here) is used. -/
def utf16Decode : List Nat → Option (List Nat)
  | 255 :: 254 :: rest => utf16leDecode rest
  | 254 :: 255 :: rest => utf16beDecode rest
  | bs => utf16leDecode bs

/-- Python `latin-1` decoding: every byte maps to the code point of the same
value; total. -/
def latin1Decode (bs : List Nat) : Option (List Nat) := some bs

/-- Python text-mode universal-newline translation: `\r\n` and `\r` become
`\n` (code points 13, 10). -/
def univNewlines : List Nat → List Nat
  | [] => []
  | [b] => [if b = 13 then 10 else b]
  | b :: c :: rest =>
    if b = 13 then
      if c = 10 then 10 :: univNewlines rest
      else 10 :: univNewlines (c :: rest)
    else b :: univNewlines (c :: rest)

/-- The TXT branch of `extract_text`: try the encodings in the fixed order,
return the first successful decode (read in text mode, so newline-translated);
if all fail, decode permissively. -/
def extract_text_txt (bs : List Nat) : List Nat :=
  match utf8Decode bs with
  | some t => univNewlines t
  | none =>
    match utf16Decode bs with
    | some t => univNewlines t
    | none =>
      match utf16leDecode bs with
      | some t => univNewlines t
      | none =>
        match utf16beDecode bs with
        | some t => univNewlines t
        | none =>
          match latin1Decode bs with
          | some t => univNewlines t
          | none => univNewlines (utf8DecodeIgnore bs)

/-- A Unicode scalar value, as encodable by Python `str.encode`: below
U+110000 and not a surrogate. -/
def ValidCP (c : Nat) : Prop := c < 1114112 ∧ (c < 55296 ∨ 57344 ≤ c)

instance (c : Nat) : Decidable (ValidCP c) := by unfold ValidCP; infer_instance

/-- UTF-8 encoding of one code point (Python `str.encode("utf-8")`). -/
def utf8EncodeChar (c : Nat) : List Nat :=
  if c < 128 then [c]
  else if c < 2048 then [192 + c / 64, 128 + c % 64]
  else if c < 65536 then [224 + c / 4096, 128 + c / 64 % 64, 128 + c % 64]
  else [240 + c / 262144, 128 + c / 4096 % 64, 128 + c / 64 % 64, 128 + c % 64]

/-- UTF-8 encoding of a text. -/
def utf8Encode : List Nat → List Nat
  | [] => []
  | c :: cs => utf8EncodeChar c ++ utf8Encode cs

/-- UTF-16-LE encoding of one code point (Python `str.encode("utf-16-le")`). -/
def utf16leEncodeChar (c : Nat) : List Nat :=
  if c < 65536 then [c % 256, c / 256]
  else
    [(55296 + (c - 65536) / 1024) % 256, (55296 + (c - 65536) / 1024) / 256,
     (56320 + (c - 65536) % 1024) % 256, (56320 + (c - 65536) % 1024) / 256]

/-- UTF-16-LE encoding of a text. -/
def utf16leEncode : List Nat → List Nat
  | [] => []
  | c :: cs => utf16leEncodeChar c ++ utf16leEncode cs

/-! ### Chunker lemmas -/

theorem splitLoop_length (text : List Char) (cs ov : Nat)
    (h1 : 0 < cs) (h2 : ov < cs) :
    ∀ fuel start, start < text.length → text.length - start ≤ fuel →
      (splitLoop text cs ov start fuel).length =
        if text.length ≤ start + cs then 1
        else (text.length - start - ov + (cs - ov - 1)) / (cs - ov) := by
  intro fuel
  induction fuel with
  | zero => intro start hs hf; omega
  | succ fuel ih =>
    intro start hs hf
    by_cases hend : text.length ≤ start + cs
    · have hmin : min (start + cs) text.length = text.length := by omega
      simp only [splitLoop, if_pos hs, hmin, eq_self_iff_true, if_true,
        List.length_singleton, if_pos hend]
    · push_neg at hend
      have hmin : min (start + cs) text.length = start + cs := by omega
      have hne : ¬ (start + cs = text.length) := by omega
      simp only [splitLoop, if_pos hs, hmin, if_neg hne, List.length_cons]
      have hs' : start + cs - ov < text.length := by omega
      have hf' : text.length - (start + cs - ov) ≤ fuel := by omega
      rw [ih (start + cs - ov) hs' hf']
      set d := cs - ov with hd
      have hd1 : 1 ≤ d := by omega
      by_cases hend' : text.length ≤ start + cs - ov + cs
      · rw [if_pos hend', if_neg (by omega)]
        have hlo : 2 * d ≤ text.length - start - ov + (d - 1) := by omega
        have hhi : text.length - start - ov + (d - 1) < 3 * d := by omega
        have := Nat.div_eq_of_lt_le hlo hhi
        omega
      · push_neg at hend'
        rw [if_neg (by omega), if_neg (by omega)]
        have hnum : text.length - start - ov + (d - 1)
            = (text.length - (start + cs - ov) - ov + (d - 1)) + d := by omega
        rw [hnum, Nat.add_div_right _ (by omega)]

theorem splitLoop_cover (text : List Char) (cs ov : Nat)
    (h1 : 0 < cs) (h2 : ov < cs) :
    ∀ fuel start, start < text.length → text.length - start ≤ fuel →
      ∀ i, start ≤ i → i < text.length →
        ∃ off, off ≤ i ∧ i < min (off + cs) text.length ∧
          ((text.drop off).take (min (off + cs) text.length - off))
            ∈ splitLoop text cs ov start fuel := by
  intro fuel
  induction fuel with
  | zero => intro start hs hf; omega
  | succ fuel ih =>
    intro start hs hf i hi1 hi2
    by_cases hend : text.length ≤ start + cs
    · have hmin : min (start + cs) text.length = text.length := by omega
      refine ⟨start, hi1, by omega, ?_⟩
      simp only [splitLoop, if_pos hs, hmin, eq_self_iff_true, if_true,
        List.mem_singleton]
    · push_neg at hend
      have hmin : min (start + cs) text.length = start + cs := by omega
      have hne : ¬ (start + cs = text.length) := by omega
      by_cases hin : i < start + cs
      · refine ⟨start, hi1, by omega, ?_⟩
        simp only [splitLoop, if_pos hs, hmin, if_neg hne, List.mem_cons]
        exact Or.inl trivial
      · push_neg at hin
        have hs' : start + cs - ov < text.length := by omega
        have hf' : text.length - (start + cs - ov) ≤ fuel := by omega
        obtain ⟨off, ho1, ho2, ho3⟩ :=
          ih (start + cs - ov) hs' hf' i (by omega) hi2
        refine ⟨off, ho1, ho2, ?_⟩
        simp only [splitLoop, if_pos hs, hmin, if_neg hne, List.mem_cons]
        right; exact ho3

theorem splitLoop_shape (text : List Char) (cs ov : Nat) (h2 : ov < cs) :
    ∀ fuel start c, c ∈ splitLoop text cs ov start fuel →
      ∃ off, start ≤ off ∧ off < text.length ∧
        c = (text.drop off).take (min (off + cs) text.length - off) := by
  intro fuel
  induction fuel with
  | zero => intro start c hc; simp [splitLoop] at hc
  | succ fuel ih =>
    intro start c hc
    by_cases hs : start < text.length
    · by_cases hend : text.length ≤ start + cs
      · have hmin : min (start + cs) text.length = text.length := by omega
        simp only [splitLoop, if_pos hs, hmin, eq_self_iff_true, if_true,
          List.mem_singleton] at hc
        exact ⟨start, Nat.le_refl _, hs, by rw [hc, hmin]⟩
      · push_neg at hend
        have hmin : min (start + cs) text.length = start + cs := by omega
        have hne : ¬ (start + cs = text.length) := by omega
        simp only [splitLoop, if_pos hs, hmin, if_neg hne, List.mem_cons] at hc
        rcases hc with hc | hc
        · exact ⟨start, Nat.le_refl _, hs, by rw [hc, hmin]⟩
        · obtain ⟨off, ho1, ho2, ho3⟩ := ih _ _ hc
          exact ⟨off, by omega, ho2, ho3⟩
    · simp only [splitLoop, if_neg hs] at hc
      simp at hc

theorem splitLoop_fuel_irrel (text : List Char) (cs ov : Nat) (h2 : ov < cs) :
    ∀ f₁ f₂ start, start < text.length →
      text.length - start ≤ f₁ → text.length - start ≤ f₂ →
      splitLoop text cs ov start f₁ = splitLoop text cs ov start f₂ := by
  intro f₁
  induction f₁ with
  | zero => intro f₂ start hs h1 h2'; omega
  | succ f₁ ih =>
    intro f₂ start hs hf1 hf2
    obtain ⟨g, rfl⟩ : ∃ g, f₂ = g + 1 := ⟨f₂ - 1, by omega⟩
    by_cases hend : text.length ≤ start + cs
    · have hmin : min (start + cs) text.length = text.length := by omega
      simp only [splitLoop, if_pos hs, hmin, eq_self_iff_true, if_true]
    · push_neg at hend
      have hmin : min (start + cs) text.length = start + cs := by omega
      have hne : ¬ (start + cs = text.length) := by omega
      simp only [splitLoop, if_pos hs, hmin, if_neg hne]
      rw [ih g (start + cs - ov) (by omega) (by omega) (by omega)]

theorem splitLoop_cons (text : List Char) (cs ov start fuel : Nat)
    (hlt : start + cs < text.length) :
    splitLoop text cs ov start (fuel + 1)
      = ((text.drop start).take cs) :: splitLoop text cs ov (start + cs - ov) fuel := by
  have hs : start < text.length := by omega
  have hmin : min (start + cs) text.length = start + cs := by omega
  have hne : ¬ (start + cs = text.length) := by omega
  simp only [splitLoop, if_pos hs, hmin, if_neg hne, Nat.add_sub_cancel_left]

theorem splitLoop_last (text : List Char) (cs ov start fuel : Nat)
    (hs : start < text.length) (hge : text.length ≤ start + cs) :
    splitLoop text cs ov start (fuel + 1)
      = [(text.drop start).take (text.length - start)] := by
  have hmin : min (start + cs) text.length = text.length := by omega
  simp only [splitLoop, if_pos hs, hmin, eq_self_iff_true, if_true]

theorem split_text_length_eq (text : List Char) (cs ov : Nat)
    (h2 : ov < cs) (hne : text ≠ []) :
    (split_text text cs ov).length =
      if text.length ≤ cs then 1
      else (text.length - ov + (cs - ov - 1)) / (cs - ov) := by
  have hpos : 0 < text.length := List.length_pos.mpr hne
  unfold split_text
  rw [if_neg hne]
  rw [splitLoop_length text cs ov (by omega) h2 (text.length + 1) 0 hpos (by omega)]
  simp only [Nat.zero_add, Nat.sub_zero]

/-- The scenario chunk layout: any 20,000-character text with
`chunk_size=8000`, `overlap=300` splits into the three windows
`[0,8000)`, `[7700,15700)`, `[15400,20000)`. -/
theorem split_text_20000 (t : List Char) (h : t.length = 20000) :
    split_text t 8000 300 = [t.take 8000, (t.drop 7700).take 8000, t.drop 15400] := by
  have hne : t ≠ [] := by intro h0; rw [h0] at h; simp at h
  unfold split_text
  rw [if_neg hne]
  rw [splitLoop_cons t 8000 300 0 t.length (by omega)]
  rw [h, show (20000 : Nat) = 19999 + 1 from rfl]
  rw [show (0 + 8000 - 300 : Nat) = 7700 from rfl]
  rw [splitLoop_cons t 8000 300 7700 19999 (by omega)]
  rw [show (7700 + 8000 - 300 : Nat) = 15400 from rfl]
  rw [show (19999 : Nat) = 19998 + 1 from rfl]
  rw [splitLoop_last t 8000 300 15400 19998 (by omega) (by omega)]
  have h4600 : List.take (t.length - 15400) (List.drop 15400 t) = List.drop 15400 t :=
    List.take_of_length_le (by rw [List.length_drop])
  rw [h4600, List.drop_zero]

/-- C2 counterexample: the empty text yields zero chunks, not one, so the
"exactly 1 chunk otherwise" branch of the claim fails at `T = ""`. -/
theorem split_text_count_cex :
    split_text ([] : List Char) 8000 300 = []
      ∧ (split_text ([] : List Char) 8000 300).length ≠ 1 := by
  constructor
  · rfl
  · decide

/-- C2 (amended): for `0 < overlap < chunk_size`, `split_text` returns exactly
`ceil((len(T) - overlap) / (chunk_size - overlap))` chunks when
`len(T) > chunk_size`, and exactly 1 chunk when `T` is nonempty with
`len(T) ≤ chunk_size` (the empty text yields 0 chunks); a 20,000-character
text with `chunk_size=8000`, `overlap=300` yields 3 chunks at offsets
`[0,8000)`, `[7700,15700)`, `[15400,20000)`. -/
theorem split_text_chunk_count (text : List Char) (cs ov : Nat)
    (h0 : 0 < ov) (h1 : ov < cs) :
    (cs < text.length →
      (split_text text cs ov).length = (text.length - ov + (cs - ov) - 1) / (cs - ov))
    ∧ (text ≠ [] → text.length ≤ cs → (split_text text cs ov).length = 1)
    ∧ (∀ t : List Char, t.length = 20000 →
        split_text t 8000 300 = [t.take 8000, (t.drop 7700).take 8000, t.drop 15400]
          ∧ (split_text t 8000 300).length = 3) := by
  refine ⟨?_, ?_, ?_⟩
  · intro hlt
    have hne : text ≠ [] := by
      intro h0'; rw [h0'] at hlt; exact absurd hlt (by simp)
    rw [split_text_length_eq text cs ov h1 hne, if_neg (by omega)]
    congr 1
    omega
  · intro hne hle
    rw [split_text_length_eq text cs ov h1 hne, if_pos hle]
  · intro t ht
    refine ⟨split_text_20000 t ht, ?_⟩
    rw [split_text_20000 t ht]
    rfl

theorem split_text_chunk_count_witness :
    (0 < 300 ∧ 300 < 8000)
      ∧ ((8000 < ("ab".toList).length →
          (split_text "ab".toList 8000 300).length
            = (("ab".toList).length - 300 + (8000 - 300) - 1) / (8000 - 300))
        ∧ ("ab".toList ≠ [] → ("ab".toList).length ≤ 8000 →
            (split_text "ab".toList 8000 300).length = 1)
        ∧ (∀ t : List Char, t.length = 20000 →
            split_text t 8000 300
                = [t.take 8000, (t.drop 7700).take 8000, t.drop 15400]
              ∧ (split_text t 8000 300).length = 3)) :=
  ⟨⟨by decide, by decide⟩, split_text_chunk_count "ab".toList 8000 300 (by decide) (by decide)⟩

/-- C3: for `overlap < chunk_size` and `chunk_size > 0`, every character
position of the text lies in the window of some returned chunk, every returned
chunk is the contiguous slice of the text at its window, and the loop's result
is independent of any sufficient fuel bound (the loop makes forward progress
and terminates). -/
theorem split_text_cover (text : List Char) (cs ov : Nat)
    (h1 : 0 < cs) (h2 : ov < cs) :
    (∀ i, i < text.length → ∃ off, off ≤ i ∧ i < min (off + cs) text.length ∧
      ((text.drop off).take (min (off + cs) text.length - off)) ∈ split_text text cs ov)
    ∧ (∀ c ∈ split_text text cs ov, ∃ off, off < text.length ∧
        c = (text.drop off).take (min (off + cs) text.length - off))
    ∧ (∀ fuel, text.length ≤ fuel →
        splitLoop text cs ov 0 fuel = split_text text cs ov) := by
  refine ⟨?_, ?_, ?_⟩
  · intro i hi
    have hne : text ≠ [] := by intro h0; rw [h0] at hi; simp at hi
    unfold split_text
    rw [if_neg hne]
    exact splitLoop_cover text cs ov h1 h2 (text.length + 1) 0 (by omega) (by omega)
      i (Nat.zero_le i) hi
  · intro c hc
    have hne : text ≠ [] := by
      intro h0
      rw [h0] at hc
      simp [split_text] at hc
    unfold split_text at hc
    rw [if_neg hne] at hc
    obtain ⟨off, _, ho2, ho3⟩ := splitLoop_shape text cs ov h2 (text.length + 1) 0 c hc
    exact ⟨off, ho2, ho3⟩
  · intro fuel hfuel
    by_cases hne : text = []
    · subst hne
      cases fuel with
      | zero => rfl
      | succ fuel => simp [split_text, splitLoop]
    · unfold split_text
      rw [if_neg hne]
      exact splitLoop_fuel_irrel text cs ov h2 fuel (text.length + 1) 0
        (List.length_pos.mpr hne) (by omega) (by omega)

theorem split_text_cover_witness :
    (0 < 3 ∧ 1 < 3)
      ∧ ((∀ i, i < ("abcde".toList).length → ∃ off, off ≤ i
            ∧ i < min (off + 3) ("abcde".toList).length
            ∧ (("abcde".toList).drop off).take
                (min (off + 3) ("abcde".toList).length - off)
                ∈ split_text "abcde".toList 3 1)
        ∧ (∀ c ∈ split_text "abcde".toList 3 1, ∃ off, off < ("abcde".toList).length
            ∧ c = (("abcde".toList).drop off).take
                (min (off + 3) ("abcde".toList).length - off))
        ∧ (∀ fuel, ("abcde".toList).length ≤ fuel →
            splitLoop "abcde".toList 3 1 0 fuel = split_text "abcde".toList 3 1)) :=
  ⟨⟨by decide, by decide⟩, split_text_cover "abcde".toList 3 1 (by decide) (by decide)⟩

/-- C4 counterexample: at `T = ""` (whose length is at most `chunk_size`),
`split_text` returns no chunks rather than one chunk equal to `T`. -/
theorem split_text_single_cex :
    split_text ([] : List Char) 8000 300 = []
      ∧ split_text ([] : List Char) 8000 300 ≠ [([] : List Char)] := by
  constructor
  · rfl
  · decide

/-- C4 (amended): for every nonempty text `T` with `len(T) ≤ chunk_size`,
`split_text` returns exactly one chunk, and that chunk is `T` itself (the
empty text instead yields no chunks). -/
theorem split_text_single (text : List Char) (cs ov : Nat)
    (hne : text ≠ []) (hle : text.length ≤ cs) :
    split_text text cs ov = [text] := by
  have hpos : 0 < text.length := List.length_pos.mpr hne
  unfold split_text
  rw [if_neg hne]
  rw [splitLoop_last text cs ov 0 text.length hpos (by omega)]
  rw [List.drop_zero, Nat.sub_zero, List.take_length]

theorem split_text_single_witness :
    ("ab".toList ≠ [] ∧ ("ab".toList).length ≤ 8000)
      ∧ split_text "ab".toList 8000 300 = ["ab".toList] :=
  ⟨⟨by decide, by decide⟩, split_text_single "ab".toList 8000 300 (by decide) (by decide)⟩

/-! ### Summarizer lemmas -/

/-- The labelled chunk summaries the loop produces under a never-failing
oracle: in chunk order, labelled `Chunk idx`, `Chunk idx+1`, .... -/
theorem summarizeChunksLoop_ok {ε : Type} (O : List Char → Except ε (List Char))
    (hO : ∀ p, ∃ r, O p = Except.ok r) :
    ∀ chs idx, summarizeChunksLoop O chs idx
      = (Except.ok (List.zipWith (fun i ch => chunkLabel i (stripOk (O (partPrompt ch))))
          (List.range' idx chs.length) chs),
         chs.map partPrompt) := by
  intro chs
  induction chs with
  | nil => intro idx; simp [summarizeChunksLoop]
  | cons ch rest ih =>
    intro idx
    obtain ⟨r, hr⟩ := hO (partPrompt ch)
    simp only [summarizeChunksLoop, call_vertex, hr, ih (idx + 1), List.length_cons,
      List.range'_succ, List.zipWith_cons_cons, List.map_cons, Except.map]
    simp [stripOk, hr]

/-- If the oracle succeeds on the prompts of the first `i` chunks and fails on
chunk `i`, the loop aborts with that error, having issued exactly the prompts
of chunks `0..i`. -/
theorem summarizeChunksLoop_err {ε : Type} (O : List Char → Except ε (List Char))
    (e : ε) :
    ∀ chs idx i, i < chs.length →
      (∀ j, j < i → ∃ r, O (partPrompt (chs.getD j [])) = Except.ok r) →
      O (partPrompt (chs.getD i [])) = Except.error e →
      summarizeChunksLoop O chs idx
        = (Except.error e, (chs.take (i + 1)).map partPrompt) := by
  intro chs
  induction chs with
  | nil => intro idx i hi; simp at hi
  | cons ch rest ih =>
    intro idx i hi hok herr
    cases i with
    | zero =>
      simp only [List.getD_cons_zero] at herr
      simp [summarizeChunksLoop, call_vertex, herr]
    | succ i =>
      obtain ⟨r, hr⟩ := hok 0 (Nat.succ_pos i)
      simp only [List.getD_cons_zero] at hr
      simp only [List.getD_cons_succ] at herr
      have hok' : ∀ j, j < i → ∃ r, O (partPrompt (rest.getD j [])) = Except.ok r := by
        intro j hj
        have := hok (j + 1) (by omega)
        simpa only [List.getD_cons_succ] using this
      simp only [summarizeChunksLoop, call_vertex, hr,
        ih (idx + 1) i (by simpa using hi) hok' herr, List.take_succ_cons,
        List.map_cons, Except.map]

/-- C1: under a never-failing Completion Client, `summarize_long_text` issues
exactly 1 call when the Chunker yields at most one chunk, and exactly
`chunkCount + 1` calls when it yields more than one. -/
theorem summarize_call_count {ε : Type} (O : List Char → Except ε (List Char))
    (hO : ∀ p, ∃ r, O p = Except.ok r) (t : List Char) :
    (summarize_long_text O t).2.length =
      if (split_text t 8000 300).length ≤ 1 then 1
      else (split_text t 8000 300).length + 1 := by
  by_cases hlen : (split_text t 8000 300).length ≤ 1
  · simp [summarize_long_text, hlen]
  · rw [if_neg hlen]
    simp only [summarize_long_text, if_neg hlen,
      summarizeChunksLoop_ok O hO (split_text t 8000 300) 1]
    simp

theorem summarize_call_count_witness :
    (∀ p : List Char, ∃ r, (fun _ : List Char => (Except.ok [] : Except Unit (List Char))) p
        = Except.ok r)
      ∧ (summarize_long_text (fun _ : List Char => (Except.ok [] : Except Unit (List Char)))
          "hello".toList).2.length =
        if (split_text "hello".toList 8000 300).length ≤ 1 then 1
        else (split_text "hello".toList 8000 300).length + 1 :=
  ⟨fun _ => ⟨[], rfl⟩,
   summarize_call_count (fun _ => Except.ok []) (fun _ => ⟨[], rfl⟩) "hello".toList⟩

/-- C5: whenever the merge step runs (more than one chunk, never-failing
client), the prompts issued are the per-chunk prompts in chunk order followed
by one merge prompt, and the merge prompt is the merge instruction applied to
the per-chunk summaries joined in original chunk order, the summary of chunk
`i` labelled `Chunk i` (1-based). -/
theorem summarize_merge_order {ε : Type} (O : List Char → Except ε (List Char))
    (hO : ∀ p, ∃ r, O p = Except.ok r) (t : List Char)
    (h2 : 2 ≤ (split_text t 8000 300).length) :
    (summarize_long_text O t).2 =
      ((split_text t 8000 300).map partPrompt)
        ++ [mergePrompt (List.intercalate "\n\n".toList
              (List.zipWith (fun i ch => chunkLabel i (stripOk (O (partPrompt ch))))
                (List.range' 1 (split_text t 8000 300).length)
                (split_text t 8000 300)))] := by
  have hlen : ¬ ((split_text t 8000 300).length ≤ 1) := by omega
  simp only [summarize_long_text, if_neg hlen,
    summarizeChunksLoop_ok O hO (split_text t 8000 300) 1]

/-- The Chunker output on the 8,001-character text `'a' * 8001`: two chunks. -/
theorem split_text_replicate_8001 :
    split_text (List.replicate 8001 'a') 8000 300
      = [List.replicate 8000 'a', List.replicate 301 'a'] := by
  unfold split_text
  rw [if_neg (List.length_pos.mp (by rw [List.length_replicate]; omega))]
  rw [List.length_replicate]
  rw [splitLoop_cons _ 8000 300 0 8001 (by rw [List.length_replicate]; omega)]
  rw [show (0 + 8000 - 300 : Nat) = 7700 from rfl]
  rw [show (8001 : Nat) = 8000 + 1 from rfl]
  rw [splitLoop_last _ 8000 300 7700 8000 (by rw [List.length_replicate]; omega)
    (by rw [List.length_replicate]; omega)]
  rw [List.drop_zero, List.take_replicate, List.drop_replicate, List.length_replicate]
  rw [List.take_replicate]
  norm_num

theorem summarize_merge_order_witness :
    (2 ≤ (split_text (List.replicate 8001 'a') 8000 300).length)
      ∧ (summarize_long_text (fun _ : List Char => (Except.ok [] : Except Unit (List Char)))
            (List.replicate 8001 'a')).2 =
          (((split_text (List.replicate 8001 'a') 8000 300)).map partPrompt)
            ++ [mergePrompt (List.intercalate "\n\n".toList
                  (List.zipWith (fun i ch => chunkLabel i
                      (stripOk ((fun _ : List Char => (Except.ok [] : Except Unit (List Char)))
                        (partPrompt ch))))
                    (List.range' 1 (split_text (List.replicate 8001 'a') 8000 300).length)
                    (split_text (List.replicate 8001 'a') 8000 300)))] :=
  ⟨by rw [split_text_replicate_8001]; decide,
   summarize_merge_order (fun _ => Except.ok []) (fun _ => ⟨[], rfl⟩)
     (List.replicate 8001 'a') (by rw [split_text_replicate_8001]; decide)⟩

/-- C6: if the Chunker yields more than one chunk and the client succeeds on
the first `i` chunk prompts but fails on chunk `i`'s prompt, the whole
operation returns that underlying error — no summary value — and exactly
`i + 1` prompts were issued (the merge step and later chunks never run, and
the completed earlier chunk work is discarded). -/
theorem summarize_abort_on_failure {ε : Type} (O : List Char → Except ε (List Char))
    (t : List Char) (i : Nat) (e : ε)
    (h2 : 2 ≤ (split_text t 8000 300).length)
    (hi : i < (split_text t 8000 300).length)
    (hok : ∀ j, j < i →
      ∃ r, O (partPrompt ((split_text t 8000 300).getD j [])) = Except.ok r)
    (herr : O (partPrompt ((split_text t 8000 300).getD i [])) = Except.error e) :
    (summarize_long_text O t).1 = Except.error e
      ∧ (summarize_long_text O t).2.length = i + 1 := by
  have hlen : ¬ ((split_text t 8000 300).length ≤ 1) := by omega
  have hloop := summarizeChunksLoop_err O e (split_text t 8000 300) 1 i hi hok herr
  constructor
  · simp only [summarize_long_text, if_neg hlen, hloop]
  · simp only [summarize_long_text, if_neg hlen, hloop, List.length_map,
      List.length_take]
    omega

theorem summarize_abort_on_failure_witness :
    (2 ≤ (split_text (List.replicate 8001 'a') 8000 300).length
      ∧ 1 < (split_text (List.replicate 8001 'a') 8000 300).length
      ∧ (∀ j, j < 1 → ∃ r,
          (fun p : List Char =>
            if p = partPrompt (List.replicate 8000 'a') then Except.ok ([] : List Char)
            else Except.error ())
            (partPrompt ((split_text (List.replicate 8001 'a') 8000 300).getD j []))
            = Except.ok r)
      ∧ (fun p : List Char =>
          if p = partPrompt (List.replicate 8000 'a') then Except.ok ([] : List Char)
          else Except.error ())
          (partPrompt ((split_text (List.replicate 8001 'a') 8000 300).getD 1 []))
          = Except.error ())
      ∧ ((summarize_long_text (fun p : List Char =>
            if p = partPrompt (List.replicate 8000 'a') then Except.ok ([] : List Char)
            else Except.error ()) (List.replicate 8001 'a')).1 = Except.error ()
        ∧ (summarize_long_text (fun p : List Char =>
            if p = partPrompt (List.replicate 8000 'a') then Except.ok ([] : List Char)
            else Except.error ()) (List.replicate 8001 'a')).2.length = 1 + 1) := by
  have hsplit := split_text_replicate_8001
  have hlen2 : (split_text (List.replicate 8001 'a') 8000 300).length = 2 := by
    rw [hsplit]; rfl
  have hg0 : (split_text (List.replicate 8001 'a') 8000 300).getD 0 []
      = List.replicate 8000 'a' := by rw [hsplit]; rfl
  have hg1 : (split_text (List.replicate 8001 'a') 8000 300).getD 1 []
      = List.replicate 301 'a' := by rw [hsplit]; rfl
  have hne : ¬ (partPrompt (List.replicate 301 'a')
      = partPrompt (List.replicate 8000 'a')) := by
    intro hcontra
    have hlencontra := congrArg List.length hcontra
    simp only [partPrompt, List.length_append, List.length_replicate] at hlencontra
    omega
  have hok : ∀ j, j < 1 → ∃ r,
      (fun p : List Char =>
        if p = partPrompt (List.replicate 8000 'a') then Except.ok ([] : List Char)
        else Except.error ())
        (partPrompt ((split_text (List.replicate 8001 'a') 8000 300).getD j []))
        = Except.ok r := by
    intro j hj
    interval_cases j
    refine ⟨[], ?_⟩
    rw [hg0]
    exact if_pos rfl
  have herr :
      (fun p : List Char =>
        if p = partPrompt (List.replicate 8000 'a') then Except.ok ([] : List Char)
        else Except.error ())
        (partPrompt ((split_text (List.replicate 8001 'a') 8000 300).getD 1 []))
        = Except.error () := by
    rw [hg1]
    exact if_neg hne
  exact ⟨⟨by omega, by omega, hok, herr⟩,
    summarize_abort_on_failure _ (List.replicate 8001 'a') 1 ()
      (by omega) (by omega) hok herr⟩

/-! ### Parser lemmas -/

theorem flushPoint_map_title (cur : Option (List Char)) (content : List (List Char)) :
    (flushPoint cur content).map Point.title = flushTitles cur := by
  cases cur with
  | none => rfl
  | some t =>
    by_cases ht : t = []
    · simp [flushPoint, flushTitles, ht]
    · simp [flushPoint, flushTitles, ht]

/-- The titles of the parsed outline are exactly the (pending title and the)
stripped header titles of the remaining lines, in order. -/
theorem parseLoop_titles : ∀ lines cur content,
    (parseLoop lines cur content).map Point.title
      = flushTitles cur ++ lines.filterMap keptTitleNE := by
  intro lines
  induction lines with
  | nil =>
    intro cur content
    simp [parseLoop, flushPoint_map_title]
  | cons l rest ih =>
    intro cur content
    by_cases hs : isSkipped l
    · have hk : keptTitleNE l = none := by simp [keptTitleNE, hs]
      simp only [parseLoop, if_pos hs, List.filterMap_cons_none hk]
      exact ih cur content
    · have hsF : isSkipped l = false := by
        cases hb : isSkipped l
        · rfl
        · exact absurd hb hs
      cases hm : matchHeader l with
      | none =>
        have hk : keptTitleNE l = none := by simp [keptTitleNE, hsF, hm]
        simp only [parseLoop, if_neg hs, hm, List.filterMap_cons_none hk]
        exact ih cur (bodyAppend l content)
      | some g3 =>
        simp only [parseLoop, if_neg hs, hm, List.map_append, ih (some (stripW g3)) [],
          flushPoint_map_title]
        by_cases hg : stripW g3 = []
        · have hk : keptTitleNE l = none := by simp [keptTitleNE, hsF, hm, hg]
          rw [List.filterMap_cons_none hk]
          simp [flushTitles, hg]
        · have hk : keptTitleNE l = some (stripW g3) := by
            simp [keptTitleNE, hsF, hm, hg]
          rw [List.filterMap_cons_some hk]
          simp [flushTitles, hg]

theorem ciDropKeyword_suffix :
    ∀ pat l r, ciDropKeyword pat l = some r → r <:+ l := by
  intro pat
  induction pat with
  | nil =>
    intro l r h
    simp only [ciDropKeyword] at h
    injection h with h
    subst h
    exact List.suffix_rfl
  | cons p ps ih =>
    intro l r h
    cases l with
    | nil => simp [ciDropKeyword] at h
    | cons c cs =>
      simp only [ciDropKeyword] at h
      by_cases hc : c.toLower = p
      · rw [if_pos hc] at h
        exact (ih cs r h).trans (List.suffix_cons c cs)
      · rw [if_neg hc] at h
        exact absurd h (by simp)

/-- A successful header match returns a nonempty suffix of the line (the text
after the colon). -/
theorem matchHeader_suffix (l g3 : List Char) (h : matchHeader l = some g3) :
    g3 ≠ [] ∧ g3 <:+ l := by
  simp only [matchHeader] at h
  have hsuf1 : l.dropWhile Char.isWhitespace <:+ l := List.dropWhile_suffix _
  set l1 := l.dropWhile Char.isWhitespace with hl1
  have hstep : ∃ l2, l2 <:+ l1 ∧
      (let l3 := l2.dropWhile Char.isWhitespace
       if (l3.takeWhile Char.isDigit).isEmpty then none
       else
         match (l3.dropWhile Char.isDigit).dropWhile Char.isWhitespace with
         | c :: rest => if c = ':' ∧ rest ≠ [] then some rest else none
         | [] => none) = some g3 := by
    cases hk : ciDropKeyword "slide".toList l1 with
    | some r1 =>
      rw [hk] at h
      exact ⟨r1, ciDropKeyword_suffix _ _ _ hk, h⟩
    | none =>
      rw [hk] at h
      cases hk2 : ciDropKeyword "section".toList l1 with
      | some r2 =>
        rw [hk2] at h
        exact ⟨r2, ciDropKeyword_suffix _ _ _ hk2, h⟩
      | none =>
        rw [hk2] at h
        exact absurd h (by simp)
  obtain ⟨l2, hsuf2, h2⟩ := hstep
  simp only at h2
  by_cases hd : ((l2.dropWhile Char.isWhitespace).takeWhile Char.isDigit).isEmpty
  · rw [if_pos hd] at h2
    exact absurd h2 (by simp)
  · rw [if_neg hd] at h2
    have hsuf4 : ((l2.dropWhile Char.isWhitespace).dropWhile Char.isDigit).dropWhile
        Char.isWhitespace <:+ l2 :=
      ((List.dropWhile_suffix _).trans (List.dropWhile_suffix _)).trans
        (List.dropWhile_suffix _)
    cases hc : ((l2.dropWhile Char.isWhitespace).dropWhile Char.isDigit).dropWhile
        Char.isWhitespace with
    | nil =>
      rw [hc] at h2
      exact absurd (h2 : (none : Option (List Char)) = some g3) (by simp)
    | cons c rest =>
      rw [hc] at h2
      have h2' : (if c = ':' ∧ rest ≠ [] then some rest else none) = some g3 := h2
      by_cases hcr : c = ':' ∧ rest ≠ []
      · rw [if_pos hcr] at h2'
        injection h2' with h2'
        subst h2'
        refine ⟨hcr.2, ?_⟩
        have hg : rest <:+ c :: rest := List.suffix_cons c rest
        rw [← hc] at hg
        exact ((hg.trans hsuf4).trans hsuf2).trans hsuf1
      · rw [if_neg hcr] at h2'
        exact absurd h2' (by simp)

theorem rstripW_getLast_not (l : List Char) (c : Char)
    (h : (rstripW l).getLast? = some c) : c.isWhitespace = false := by
  unfold rstripW at h
  rw [List.getLast?_reverse] at h
  have hw := List.head?_dropWhile_not Char.isWhitespace l.reverse
  rw [h] at hw
  exact hw

theorem stripW_ne_nil_of_getLast (g : List Char) (c : Char)
    (hc : g.getLast? = some c) (hcws : c.isWhitespace = false) : stripW g ≠ [] := by
  intro hcontra
  unfold stripW rstripW lstripW at hcontra
  rw [List.reverse_eq_nil_iff, List.dropWhile_eq_nil_iff] at hcontra
  have hmem : c ∈ g := List.mem_of_getLast?_eq_some hc
  have hsplit := List.takeWhile_append_dropWhile (p := Char.isWhitespace) (l := g)
  rw [← hsplit] at hmem
  rcases List.mem_append.mp hmem with h1 | h2
  · exact absurd (List.mem_takeWhile_imp h1) (by simp [hcws])
  · have := hcontra c (List.mem_reverse.mpr h2)
    simp [hcws] at this

/-- On a right-stripped line (as all preprocessed lines are), a matched header
title never strips to the empty string, so `keptTitleNE` and `keptTitle`
agree. -/
theorem keptTitleNE_eq_keptTitle (raw : List Char) :
    keptTitleNE (rstripW raw) = keptTitle (rstripW raw) := by
  by_cases hs : isSkipped (rstripW raw)
  · simp [keptTitleNE, keptTitle, hs]
  · have hsF : isSkipped (rstripW raw) = false := by
      cases hb : isSkipped (rstripW raw)
      · rfl
      · exact absurd hb hs
    cases hm : matchHeader (rstripW raw) with
    | none => simp [keptTitleNE, keptTitle, hsF, hm]
    | some g3 =>
      obtain ⟨hne, hsuf⟩ := matchHeader_suffix _ _ hm
      obtain ⟨c, hc⟩ : ∃ c, g3.getLast? = some c := by
        cases hg : g3.getLast? with
        | none => exact absurd (List.getLast?_eq_none_iff.mp hg) hne
        | some c => exact ⟨c, rfl⟩
      have hlast : (rstripW raw).getLast? = some c := by
        obtain ⟨t, ht⟩ := hsuf
        rw [← ht, List.getLast?_append_of_ne_nil t hne, hc]
      have hcws : c.isWhitespace = false := rstripW_getLast_not raw c hlast
      have hstrip : stripW g3 ≠ [] := stripW_ne_nil_of_getLast g3 c hc hcws
      simp [keptTitleNE, keptTitle, hsF, hm, hstrip]

/-- C7 counterexample: the reply `"Slide 1: Would you like tea"` has exactly
one line matching the header pattern, yet parses to zero items — the parser
drops header lines containing the phrase `"Would you like"`. -/
theorem parse_points_header_cex :
    (processLines "Slide 1: Would you like tea".toList).countP
        (fun l => (matchHeader l).isSome) = 1
      ∧ parse_points "Slide 1: Would you like tea".toList = [] := by
  constructor
  · decide
  · decide

/-- C7 (amended): for every reply, `parse_points` returns exactly one item per
header line that matches the `Slide/Section N: title` pattern and does not
contain the phrase `"Would you like"` (and is nonempty after markdown-character
removal and right-stripping), in the order the headers appear, with the
stripped header titles; in particular a reply with zero such lines yields zero
items, and the reply `"Slide 1: Intro\n- point a\nSlide 2: Body\n- point b"`
yields the two items `Intro`/`"• point a"` and `Body`/`"• point b"`. -/
theorem parse_points_headers (reply : List Char) :
    (parse_points reply).map Point.title = (processLines reply).filterMap keptTitle
      ∧ parse_points "Slide 1: Intro\n- point a\nSlide 2: Body\n- point b".toList
          = [⟨"Intro".toList, "• point a".toList⟩, ⟨"Body".toList, "• point b".toList⟩]
      ∧ parse_points "no headers here\n- bullet".toList = [] := by
  refine ⟨?_, by decide, by decide⟩
  unfold parse_points
  rw [parseLoop_titles]
  have hcong : ∀ l ∈ processLines reply, keptTitleNE l = keptTitle l := by
    intro l hl
    simp only [processLines, List.mem_map] at hl
    obtain ⟨raw, _, rfl⟩ := hl
    exact keptTitleNE_eq_keptTitle (removeMd raw)
  rw [List.filterMap_congr hcong]
  rfl

/-- While no header has been seen (`current_title` is `None`), the accumulated
content cannot reach the output. -/
theorem parseLoop_none_content : ∀ lines c c',
    parseLoop lines none c = parseLoop lines none c' := by
  intro lines
  induction lines with
  | nil => intro c c'; rfl
  | cons l rest ih =>
    intro c c'
    by_cases hs : isSkipped l
    · simp only [parseLoop, if_pos hs]
      exact ih c c'
    · simp only [parseLoop, if_neg hs]
      cases hm : matchHeader l with
      | some g3 => simp only [hm]; rfl
      | none =>
        simp only [hm]
        exact ih _ _

theorem parseLoop_drop_preamble : ∀ pre rest,
    (∀ l ∈ pre, isSkipped l = true ∨ matchHeader l = none) →
    parseLoop (pre ++ rest) none [] = parseLoop rest none [] := by
  intro pre
  induction pre with
  | nil => intro rest _; rfl
  | cons l pre' ih =>
    intro rest hpre
    have htail : ∀ x ∈ pre', isSkipped x = true ∨ matchHeader x = none :=
      fun x hx => hpre x (List.mem_cons_of_mem _ hx)
    by_cases hs : isSkipped l
    · simp only [List.cons_append, parseLoop, if_pos hs]
      exact ih rest htail
    · have hnone : matchHeader l = none := by
        rcases hpre l (List.mem_cons_self l pre') with h | h
        · exact absurd h hs
        · exact h
      simp only [List.cons_append, parseLoop, if_neg hs, hnone]
      rw [parseLoop_none_content _ (bodyAppend l []) []]
      exact ih rest htail

/-- C10: lines occurring before the first header-pattern line are silently
discarded — parsing the whole reply equals parsing only the lines from the
first header on, so the preamble reaches no item's title or description. -/
theorem parse_points_preamble (reply : List Char) (pre rest : List (List Char))
    (hsplit : processLines reply = pre ++ rest)
    (hpre : ∀ l ∈ pre, isSkipped l = true ∨ matchHeader l = none) :
    parse_points reply = parseLoop rest none [] := by
  unfold parse_points
  rw [hsplit]
  exact parseLoop_drop_preamble pre rest hpre

theorem parse_points_preamble_witness :
    (processLines "junk\nSlide 1: T\n- a".toList
        = ["junk".toList] ++ ["Slide 1: T".toList, "- a".toList]
      ∧ (∀ l ∈ ["junk".toList], isSkipped l = true ∨ matchHeader l = none))
      ∧ parse_points "junk\nSlide 1: T\n- a".toList
          = parseLoop ["Slide 1: T".toList, "- a".toList] none [] := by
  have h1 : processLines "junk\nSlide 1: T\n- a".toList
      = ["junk".toList] ++ ["Slide 1: T".toList, "- a".toList] := by decide
  have h2 : ∀ l ∈ ["junk".toList], isSkipped l = true ∨ matchHeader l = none := by
    decide
  exact ⟨⟨h1, h2⟩, parse_points_preamble _ _ _ h1 h2⟩

/-! ### Slide-count lemmas -/

/-- C9 counterexample: for the description `"1 slides"` the code returns
`max(1, 0) = 1`, which is not one fewer than the count the user wrote. -/
theorem extract_slide_count_cex :
    extract_slide_count "1 slides".toList 5 = 1 ∧ (1 : Nat) ≠ 1 - 1 := by
  constructor
  · decide
  · decide

/-- C9 (amended): `extract_slide_count` returns `max 1 (N - 1)` where `N` is
the first number followed (after optional whitespace) by
`slides`/`sections`/`pages` case-insensitively, and `default - 1 = 4`
otherwise; the outline-generation endpoints therefore request `N - 1` content
items when the description contains such an `N ≥ 2`, and request `1` item
(never `0`) when `N ≤ 1`. -/
theorem extract_slide_count_spec (description : List Char) :
    extract_slide_count description 5
        = (match searchCount description with
           | some n => max 1 (n - 1)
           | none => 5 - 1)
      ∧ num_content_slides description = extract_slide_count description 5
      ∧ (∀ n, searchCount description = some n → 2 ≤ n →
          num_content_slides description = n - 1)
      ∧ (searchCount description = none → num_content_slides description = 4) := by
  refine ⟨rfl, rfl, ?_, ?_⟩
  · intro n hn h2
    unfold num_content_slides extract_slide_count
    rw [hn]
    show max 1 (n - 1) = n - 1
    omega
  · intro hn
    unfold num_content_slides extract_slide_count
    rw [hn]

theorem extract_slide_count_spec_witness :
    (searchCount "make 7 slides".toList = some 7)
      ∧ num_content_slides "make 7 slides".toList = 7 - 1 := by
  have h : searchCount "make 7 slides".toList = some 7 := by decide
  exact ⟨h, (extract_slide_count_spec "make 7 slides".toList).2.2.1 7 h (by decide)⟩

/-! ### Text-extraction lemmas -/

/-- Decoding one UTF-8-encoded scalar value recovers it, byte-exactly, in
front of any continuation of the stream. -/
theorem utf8Step_encodeChar (c : Nat) (hv : ValidCP c) (t : List Nat) :
    utf8Step (utf8EncodeChar c ++ t) = some (c, t) := by
  obtain ⟨h1, h2⟩ := hv
  by_cases hc1 : c < 128
  · simp only [utf8EncodeChar, if_pos hc1, List.cons_append, List.nil_append]
    simp only [utf8Step, if_pos hc1]
  · by_cases hc2 : c < 2048
    · have e1 : ¬ (192 + c / 64 < 128) := by omega
      have e2 : ¬ (192 + c / 64 < 194) := by omega
      have e3 : 192 + c / 64 < 224 := by omega
      have e4 : 128 ≤ 128 + c % 64 ∧ 128 + c % 64 < 192 := by omega
      simp only [utf8EncodeChar, if_neg hc1, if_pos hc2, List.cons_append,
        List.nil_append]
      simp only [utf8Step, if_neg e1, if_neg e2, if_pos e3, if_pos e4]
      have hval : (192 + c / 64 - 192) * 64 + (128 + c % 64 - 128) = c := by omega
      rw [hval]
    · by_cases hc3 : c < 65536
      · have e1 : ¬ (224 + c / 4096 < 128) := by omega
        have e2 : ¬ (224 + c / 4096 < 194) := by omega
        have e3 : ¬ (224 + c / 4096 < 224) := by omega
        have e4 : 224 + c / 4096 < 240 := by omega
        have e5 : (128 ≤ 128 + c / 64 % 64 ∧ 128 + c / 64 % 64 < 192)
            ∧ (128 ≤ 128 + c % 64 ∧ 128 + c % 64 < 192)
            ∧ (224 + c / 4096 ≠ 224 ∨ 160 ≤ 128 + c / 64 % 64)
            ∧ (224 + c / 4096 ≠ 237 ∨ 128 + c / 64 % 64 < 160) := by omega
        simp only [utf8EncodeChar, if_neg hc1, if_neg hc2, if_pos hc3,
          List.cons_append, List.nil_append]
        simp only [utf8Step, if_neg e1, if_neg e2, if_neg e3, if_pos e4, if_pos e5]
        have hval : (224 + c / 4096 - 224) * 4096 + (128 + c / 64 % 64 - 128) * 64
            + (128 + c % 64 - 128) = c := by omega
        rw [hval]
      · have e1 : ¬ (240 + c / 262144 < 128) := by omega
        have e2 : ¬ (240 + c / 262144 < 194) := by omega
        have e3 : ¬ (240 + c / 262144 < 224) := by omega
        have e4 : ¬ (240 + c / 262144 < 240) := by omega
        have e5 : 240 + c / 262144 < 245 := by omega
        have e6 : (128 ≤ 128 + c / 4096 % 64 ∧ 128 + c / 4096 % 64 < 192)
            ∧ (128 ≤ 128 + c / 64 % 64 ∧ 128 + c / 64 % 64 < 192)
            ∧ (128 ≤ 128 + c % 64 ∧ 128 + c % 64 < 192)
            ∧ (240 + c / 262144 ≠ 240 ∨ 144 ≤ 128 + c / 4096 % 64)
            ∧ (240 + c / 262144 ≠ 244 ∨ 128 + c / 4096 % 64 < 144) := by omega
        simp only [utf8EncodeChar, if_neg hc1, if_neg hc2, if_neg hc3,
          List.cons_append, List.nil_append]
        simp only [utf8Step, if_neg e1, if_neg e2, if_neg e3, if_neg e4, if_pos e5,
          if_pos e6]
        have hval : (240 + c / 262144 - 240) * 262144 + (128 + c / 4096 % 64 - 128) * 4096
            + (128 + c / 64 % 64 - 128) * 64 + (128 + c % 64 - 128) = c := by omega
        rw [hval]

theorem utf8DecodeGo_nil (fuel : Nat) : utf8DecodeGo fuel [] = some [] := by
  cases fuel <;> rfl

theorem utf8DecodeGo_step (k : Nat) (bs : List Nat) (c : Nat) (rest : List Nat)
    (hne : bs ≠ []) (hstep : utf8Step bs = some (c, rest)) :
    utf8DecodeGo (k + 1) bs = (utf8DecodeGo k rest).map (fun cs => c :: cs) := by
  obtain ⟨b, bs', rfl⟩ := List.exists_cons_of_ne_nil hne
  simp only [utf8DecodeGo, hstep]

theorem utf8EncodeChar_length_pos (c : Nat) : 0 < (utf8EncodeChar c).length := by
  unfold utf8EncodeChar
  repeat' split
  all_goals simp

theorem utf8DecodeGo_encode : ∀ cs fuel, (∀ c ∈ cs, ValidCP c) →
    (utf8Encode cs).length ≤ fuel → utf8DecodeGo fuel (utf8Encode cs) = some cs := by
  intro cs
  induction cs with
  | nil => intro fuel _ _; exact utf8DecodeGo_nil fuel
  | cons c cs' ih =>
    intro fuel hv hfuel
    have hcpos := utf8EncodeChar_length_pos c
    have hlen : (utf8Encode (c :: cs')).length
        = (utf8EncodeChar c).length + (utf8Encode cs').length := by
      simp [utf8Encode, List.length_append]
    obtain ⟨k, rfl⟩ : ∃ k, fuel = k + 1 := ⟨fuel - 1, by omega⟩
    have hne : utf8Encode (c :: cs') ≠ [] := by
      intro hcontra
      rw [hcontra] at hlen
      simp at hlen
      omega
    have hstep : utf8Step (utf8Encode (c :: cs')) = some (c, utf8Encode cs') :=
      utf8Step_encodeChar c (hv c (List.mem_cons_self c cs')) (utf8Encode cs')
    rw [show utf8Encode (c :: cs') = utf8EncodeChar c ++ utf8Encode cs' from rfl] at *
    rw [utf8DecodeGo_step k _ c (utf8Encode cs') hne hstep]
    rw [ih k (fun x hx => hv x (List.mem_cons_of_mem _ hx)) (by omega)]
    rfl

theorem utf8Decode_encode (cs : List Nat) (h : ∀ c ∈ cs, ValidCP c) :
    utf8Decode (utf8Encode cs) = some cs :=
  utf8DecodeGo_encode cs (utf8Encode cs).length h (Nat.le_refl _)

theorem univNewlines_eq_self (cs : List Nat) (h : ∀ c ∈ cs, c ≠ 13) :
    univNewlines cs = cs := by
  induction cs with
  | nil => rfl
  | cons b cs' ih =>
    cases cs' with
    | nil =>
      have hb := h b (List.mem_cons_self _ _)
      simp [univNewlines, hb]
    | cons c rest =>
      have hb := h b (List.mem_cons_self _ _)
      have ih' := ih (fun x hx => h x (List.mem_cons_of_mem _ hx))
      simp only [univNewlines, if_neg hb]
      rw [ih']

/-- C8 counterexample: the ASCII text `"ab"` encoded as `utf-16-le` gives
bytes that the earlier `utf-8` attempt decodes successfully — to
`"a\x00b\x00"`, not to `"ab"` — so extraction does not round-trip every
supported encoding. -/
theorem extract_text_txt_cex :
    utf16leEncode [97, 98] = [97, 0, 98, 0]
      ∧ extract_text_txt (utf16leEncode [97, 98]) = [97, 0, 98, 0]
      ∧ extract_text_txt (utf16leEncode [97, 98]) ≠ [97, 98] := by
  refine ⟨by decide, by decide, by decide⟩

/-- C8 (amended): extraction tries the fixed ordered encoding list and returns
the first successful decode (newline-translated, as Python text mode does). A
text encoded in UTF-8 without carriage returns round-trips exactly; texts in
the later encodings need not round-trip, because an earlier encoding may
accept their bytes (for example `"ab"` encoded `utf-16-le` decodes as UTF-8 to
`"a\x00b\x00"`). -/
theorem extract_text_txt_utf8_roundtrip (cs : List Nat)
    (h : ∀ c ∈ cs, ValidCP c ∧ c ≠ 13) :
    extract_text_txt (utf8Encode cs) = cs := by
  have hdec : utf8Decode (utf8Encode cs) = some cs :=
    utf8Decode_encode cs (fun c hc => (h c hc).1)
  unfold extract_text_txt
  rw [hdec]
  exact univNewlines_eq_self cs (fun c hc => (h c hc).2)

theorem extract_text_txt_utf8_roundtrip_witness :
    (∀ c ∈ [104, 233, 128512], ValidCP c ∧ c ≠ 13)
      ∧ extract_text_txt (utf8Encode [104, 233, 128512]) = [104, 233, 128512] :=
  ⟨by decide, extract_text_txt_utf8_roundtrip [104, 233, 128512] (by decide)⟩
